import Mathlib

/-!
Verification of the backdoor trigger transforms in
`src/cupbearer/data/backdoors.py` (classes `CornerPixelBackdoor`,
`NoiseBackdoor`, `WanetBackdoor`).

Images are embedded as nested lists of rationals.  `numpy` arrays passed to
`CornerPixelBackdoor`/`NoiseBackdoor` follow the channel-last convention of
the source (axis 0 × axis 1 × channels); the 4D tensors consumed by
`WanetBackdoor.__call__` are (batch × channels × py × px).  The per-call
uniform draws of `torch.rand` are passed in explicitly as rational
parameters in [0,1); Gaussian noise draws are passed as explicit arrays.
-/

/-- One pixel: the list of its channel values (channel-last convention). -/
abbrev Pixel := List ℚ

/-- A channel-last image: axis 0 × axis 1 × channels. -/
abbrev Img3 := List (List Pixel)

/-- A 4D tensor (batch × channels × rows × columns). -/
abbrev T4 := List (List (List (List ℚ)))

/-- Pixel at position `(i, j)` (axis 0 index `i`, axis 1 index `j`). -/
def getPixel (img : Img3) (i j : Nat) : Pixel :=
  (img.getD i []).getD j []

/-- The numpy statement `img[i, j] = 1`: the scalar broadcasts over the
trailing channel axis, so every channel of the pixel becomes 1. -/
def setPixelAllOne (img : Img3) (i j : Nat) : Img3 :=
  img.set i ((img.getD i []).set j ((getPixel img i j).map fun _ => 1))

/-- `l.getD` helper: reading the position just written by `l.set`. -/
theorem getD_set_self {α : Type} :
    ∀ (l : List α) (i : Nat) (a d : α), i < l.length → (l.set i a).getD i d = a := by
  intro l
  induction l with
  | nil => intro i a d h; simp at h
  | cons x xs ih =>
    intro i a d h
    cases i with
    | zero => rfl
    | succ n =>
      have hn : n < xs.length := by simpa using h
      simpa [List.set, List.getD] using ih n a d hn

/-- `l.getD` helper: reading a position other than the one written. -/
theorem getD_set_other {α : Type} :
    ∀ (l : List α) (i j : Nat) (a d : α), i ≠ j → (l.set i a).getD j d = l.getD j d := by
  intro l
  induction l with
  | nil => intro i j a d _; simp [List.set]
  | cons x xs ih =>
    intro i j a d hne
    cases i with
    | zero =>
      cases j with
      | zero => exact absurd rfl hne
      | succ m => rfl
    | succ n =>
      cases j with
      | zero => rfl
      | succ m =>
        have : n ≠ m := fun h => hne (by rw [h])
        simpa [List.set, List.getD] using ih n m a d this

/-- Membership of `l.getD i d` for an in-range index. -/
theorem getD_mem {α : Type} :
    ∀ (l : List α) (i : Nat) (d : α), i < l.length → l.getD i d ∈ l := by
  intro l
  induction l with
  | nil => intro i d h; simp at h
  | cons x xs ih =>
    intro i d h
    cases i with
    | zero => exact List.mem_cons_self x xs
    | succ n =>
      have hn : n < xs.length := by simpa using h
      exact List.mem_cons_of_mem x (ih n d hn)

/-- Configuration of `CornerPixelBackdoor` (fields of the dataclass). -/
structure CornerPixelBackdoor where
  p_backdoor : ℚ
  corner : String
  target_class : ℤ

/-- The body of `CornerPixelBackdoor.__call__` past the probability check
(lines 49-57 of `backdoors.py`): writes 1 into one position of the array,
with Python's negative indices `-1` resolved against the relevant axis
length.  Note that the second index of `img[0, -1]` / `img[-1, -1]` is
resolved against the length of the selected row. -/
def cornerApply (corner : String) (img : Img3) : Img3 :=
  if corner = "top-left" then setPixelAllOne img 0 0
  else if corner = "top-right" then setPixelAllOne img (img.length - 1) 0
  else if corner = "bottom-left" then
    setPixelAllOne img 0 ((img.getD 0 []).length - 1)
  else if corner = "bottom-right" then
    setPixelAllOne img (img.length - 1) ((img.getD (img.length - 1) []).length - 1)
  else img

/-- `CornerPixelBackdoor.__call__` with Python reference semantics made
explicit.  The statement `img[i, j] = 1` mutates the caller's array in
place and the function returns that same object, so the result is the pair
(content of the caller's array after the call, returned `(img, target)`).
`r` is the value drawn by `torch.rand(1)`. -/
def cornerCallInPlace (t : CornerPixelBackdoor) (img : Img3) (target : ℤ) (r : ℚ) :
    Img3 × (Img3 × ℤ) :=
  if r > t.p_backdoor then (img, (img, target))
  else (cornerApply t.corner img, (cornerApply t.corner img, t.target_class))

/-- The value returned by `CornerPixelBackdoor.__call__`. -/
def cornerCall (t : CornerPixelBackdoor) (img : Img3) (target : ℤ) (r : ℚ) :
    Img3 × ℤ :=
  (cornerCallInPlace t img target r).2

/-- The pixel position the source code writes for each corner name:
`top-left ↦ img[0,0]`, `top-right ↦ img[-1,0]`, `bottom-left ↦ img[0,-1]`,
`bottom-right ↦ img[-1,-1]`, resolved on an image with `h` rows of length
`w`. -/
def codeCornerIdx (corner : String) (h w : Nat) : Nat × Nat :=
  if corner = "top-left" then (0, 0)
  else if corner = "top-right" then (h - 1, 0)
  else if corner = "bottom-left" then (0, w - 1)
  else (h - 1, w - 1)

/-- Modelled from the spec's words: the corner of the image *named* by the
corner string under the channel-last convention, where axis 0 of the array
indexes rows from top to bottom and axis 1 indexes columns from left to
right (the standard (H, W, C) reading of a channel-last image).  Used only
to compare the implemented corner mapping against the named one. -/
def specCornerIdx (corner : String) (h w : Nat) : Nat × Nat :=
  if corner = "top-left" then (0, 0)
  else if corner = "top-right" then (0, w - 1)
  else if corner = "bottom-left" then (h - 1, 0)
  else (h - 1, w - 1)

/-- Rectangularity of a channel-last image: `h` rows, each of length `w`. -/
def RectImg (img : Img3) (h w : Nat) : Prop :=
  img.length = h ∧ ∀ row ∈ img, row.length = w

instance (img : Img3) (h w : Nat) : Decidable (RectImg img h w) := by
  unfold RectImg
  exact instDecidableAnd

/-- Row `i` of a rectangular image has length `w`. -/
theorem rectRowLen (img : Img3) (h w : Nat) (hrect : RectImg img h w)
    (i : Nat) (hi : i < h) : (img.getD i []).length = w := by
  have hlen : i < img.length := by rw [hrect.1]; exact hi
  exact hrect.2 _ (getD_mem img i [] hlen)

/-- Reading the written pixel back out of `setPixelAllOne`. -/
theorem getPixel_setPixelAllOne_self (img : Img3) (ci cj : Nat)
    (hci : ci < img.length) (hcj : cj < (img.getD ci []).length) :
    getPixel (setPixelAllOne img ci cj) ci cj =
      (getPixel img ci cj).map fun _ => (1 : ℚ) := by
  unfold setPixelAllOne getPixel
  rw [getD_set_self _ _ _ _ hci, getD_set_self _ _ _ _ hcj]

/-- Every other pixel is untouched by `setPixelAllOne`. -/
theorem getPixel_setPixelAllOne_other (img : Img3) (ci cj i j : Nat)
    (hne : (i, j) ≠ (ci, cj)) :
    getPixel (setPixelAllOne img ci cj) i j = getPixel img i j := by
  unfold setPixelAllOne getPixel
  by_cases hi : ci = i
  · subst hi
    have hj : cj ≠ j := fun h => hne (by rw [h])
    by_cases hlt : ci < img.length
    · rw [getD_set_self _ _ _ _ hlt, getD_set_other _ _ _ _ _ hj]
    · have hge : img.length ≤ ci := Nat.le_of_not_lt hlt
      have h1 : ∀ (l : List (List Pixel)) (x : List Pixel),
          l.length ≤ ci → (l.set ci x).getD ci [] = [] := by
        intro l x hl
        exact List.getD_eq_default _ _ (by simpa using hl)
      rw [h1 _ _ hge, List.getD_eq_default _ _ hge]
  · rw [getD_set_other _ _ _ _ _ hi]

/-- Configuration of `NoiseBackdoor` (fields of the dataclass). -/
structure NoiseBackdoor where
  p_backdoor : ℚ
  std : ℚ
  target_class : ℤ

/-- Elementwise `img + noise` on channel-last images. -/
def addImg (a b : Img3) : Img3 :=
  List.zipWith (List.zipWith (List.zipWith (· + ·))) a b

/-- `NoiseBackdoor.__call__` (lines 72-79 of `backdoors.py`).  `r` is the
value drawn by `torch.rand(1)`; `noise` is the array drawn by
`np.random.normal(0, std, img.shape)`.  Unlike the corner transform this
one allocates a new array (`img = img + noise`), so no in-place state is
threaded. -/
def noiseCall (t : NoiseBackdoor) (img : Img3) (target : ℤ) (r : ℚ)
    (noise : Img3) : Img3 × ℤ :=
  if r > t.p_backdoor then (img, target)
  else (addImg img noise, t.target_class)

/-- C1 (counterexample): with `p_backdoor = 1` and `corner = "top-right"`
on a 2×2 single-channel image, the output of `CornerPixelBackdoor.__call__`
is not the image demanded by the claim (the named top-right corner, i.e.
position (0, 1) in row-major channel-last indexing, set to maximum
intensity with all other pixels unchanged): the code writes position
(1, 0) instead. -/
theorem corner_named_corner_counterexample :
    (cornerCall ⟨1, "top-right", 7⟩ [[[0], [0]], [[0], [0]]] 3 0).1 ≠
      setPixelAllOne [[[0], [0]], [[0], [0]]]
        (specCornerIdx "top-right" 2 2).1 (specCornerIdx "top-right" 2 2).2 := by
  decide

/-- C1 (amended): with `p_backdoor = 1` the corner transform always fires
(every draw `r < 1` satisfies `¬ r > 1`); it sets every channel of exactly
one pixel — the one the code maps the corner name to, namely
top-left ↦ (0,0), top-right ↦ (h-1,0), bottom-left ↦ (0,w-1),
bottom-right ↦ (h-1,w-1) — to the maximum intensity 1, leaves every other
pixel equal to its input value, and returns `target_class` as the label. -/
theorem corner_pixel_amended (t : CornerPixelBackdoor) (img : Img3) (target : ℤ)
    (r : ℚ) (h w : Nat)
    (hcorner : t.corner = "top-left" ∨ t.corner = "top-right" ∨
      t.corner = "bottom-left" ∨ t.corner = "bottom-right")
    (hp : t.p_backdoor = 1) (hr : r < 1) (hrect : RectImg img h w)
    (hh : 1 ≤ h) (hw : 1 ≤ w) :
    (cornerCall t img target r).2 = t.target_class ∧
    getPixel (cornerCall t img target r).1 (codeCornerIdx t.corner h w).1
        (codeCornerIdx t.corner h w).2 =
      (getPixel img (codeCornerIdx t.corner h w).1
        (codeCornerIdx t.corner h w).2).map (fun _ => (1 : ℚ)) ∧
    ∀ i j : Nat, (i, j) ≠ codeCornerIdx t.corner h w →
      getPixel (cornerCall t img target r).1 i j = getPixel img i j := by
  have hbranch : cornerCall t img target r = (cornerApply t.corner img, t.target_class) := by
    unfold cornerCall cornerCallInPlace
    rw [if_neg (by rw [hp]; exact not_lt.mpr hr.le)]
  have hlen : img.length = h := hrect.1
  have hh0 : 0 < h := hh
  have hw0 : 0 < w := hw
  have hsub : h - 1 < h := Nat.sub_lt hh0 Nat.one_pos
  rcases hcorner with hc | hc | hc | hc
  · -- top-left
    have happ : cornerApply t.corner img = setPixelAllOne img 0 0 := by
      rw [hc]; unfold cornerApply; rw [if_pos rfl]
    have hidx : codeCornerIdx t.corner h w = (0, 0) := by
      rw [hc]; unfold codeCornerIdx; rw [if_pos rfl]
    rw [hbranch, happ, hidx]
    refine ⟨rfl, ?_, ?_⟩
    · exact getPixel_setPixelAllOne_self img 0 0 (by rw [hlen]; exact hh0)
        (by rw [rectRowLen img h w hrect 0 hh0]; exact hw0)
    · intro i j hne
      exact getPixel_setPixelAllOne_other img 0 0 i j hne
  · -- top-right
    have happ : cornerApply t.corner img = setPixelAllOne img (h - 1) 0 := by
      rw [hc]; unfold cornerApply
      rw [if_neg (by decide), if_pos rfl, hlen]
    have hidx : codeCornerIdx t.corner h w = (h - 1, 0) := by
      rw [hc]; unfold codeCornerIdx
      rw [if_neg (by decide), if_pos rfl]
    rw [hbranch, happ, hidx]
    refine ⟨rfl, ?_, ?_⟩
    · exact getPixel_setPixelAllOne_self img (h - 1) 0 (by rw [hlen]; exact hsub)
        (by rw [rectRowLen img h w hrect (h - 1) hsub]; exact hw0)
    · intro i j hne
      exact getPixel_setPixelAllOne_other img (h - 1) 0 i j hne
  · -- bottom-left
    have happ : cornerApply t.corner img = setPixelAllOne img 0 (w - 1) := by
      rw [hc]; unfold cornerApply
      rw [if_neg (by decide), if_neg (by decide), if_pos rfl,
        rectRowLen img h w hrect 0 hh0]
    have hidx : codeCornerIdx t.corner h w = (0, w - 1) := by
      rw [hc]; unfold codeCornerIdx
      rw [if_neg (by decide), if_neg (by decide), if_pos rfl]
    rw [hbranch, happ, hidx]
    refine ⟨rfl, ?_, ?_⟩
    · exact getPixel_setPixelAllOne_self img 0 (w - 1) (by rw [hlen]; exact hh0)
        (by rw [rectRowLen img h w hrect 0 hh0]; exact Nat.sub_lt hw0 Nat.one_pos)
    · intro i j hne
      exact getPixel_setPixelAllOne_other img 0 (w - 1) i j hne
  · -- bottom-right
    have happ : cornerApply t.corner img = setPixelAllOne img (h - 1) (w - 1) := by
      rw [hc]; unfold cornerApply
      rw [if_neg (by decide), if_neg (by decide), if_neg (by decide), if_pos rfl,
        hlen, rectRowLen img h w hrect (h - 1) hsub]
    have hidx : codeCornerIdx t.corner h w = (h - 1, w - 1) := by
      rw [hc]; unfold codeCornerIdx
      rw [if_neg (by decide), if_neg (by decide), if_neg (by decide)]
    rw [hbranch, happ, hidx]
    refine ⟨rfl, ?_, ?_⟩
    · exact getPixel_setPixelAllOne_self img (h - 1) (w - 1) (by rw [hlen]; exact hsub)
        (by rw [rectRowLen img h w hrect (h - 1) hsub]; exact Nat.sub_lt hw0 Nat.one_pos)
    · intro i j hne
      exact getPixel_setPixelAllOne_other img (h - 1) (w - 1) i j hne

/-- Witness for `corner_pixel_amended` at a concrete input: corner
`"bottom-left"`, a 2×2 single-channel zero image, label 3, draw 0. -/
theorem corner_pixel_amended_witness :
    ((("bottom-left" : String) = "top-left" ∨ ("bottom-left" : String) = "top-right" ∨
      ("bottom-left" : String) = "bottom-left" ∨ ("bottom-left" : String) = "bottom-right") ∧
     (1 : ℚ) = 1 ∧ (0 : ℚ) < 1 ∧
     RectImg [[[0], [0]], [[0], [0]]] 2 2 ∧ 1 ≤ 2 ∧ 1 ≤ 2) ∧
    ((cornerCall ⟨1, "bottom-left", 5⟩ [[[0], [0]], [[0], [0]]] 3 0).2 = 5 ∧
     getPixel (cornerCall ⟨1, "bottom-left", 5⟩ [[[0], [0]], [[0], [0]]] 3 0).1
         (codeCornerIdx "bottom-left" 2 2).1 (codeCornerIdx "bottom-left" 2 2).2 =
       (getPixel [[[0], [0]], [[0], [0]]] (codeCornerIdx "bottom-left" 2 2).1
         (codeCornerIdx "bottom-left" 2 2).2).map (fun _ => (1 : ℚ)) ∧
     ∀ i j : Nat, (i, j) ≠ codeCornerIdx "bottom-left" 2 2 →
       getPixel (cornerCall ⟨1, "bottom-left", 5⟩ [[[0], [0]], [[0], [0]]] 3 0).1 i j =
         getPixel [[[0], [0]], [[0], [0]]] i j) :=
  ⟨⟨by decide, rfl, by norm_num, by decide, by decide, by decide⟩,
    corner_pixel_amended ⟨1, "bottom-left", 5⟩ [[[0], [0]], [[0], [0]]] 3 0 2 2
      (by decide) rfl (by norm_num) (by decide) (by decide) (by decide)⟩

/-- C2 (evaluation at the failing input): on a 1×1 three-channel image the
corner transform writes 1 into *every* channel of the trigger pixel
(white), not 1 in channel 0 and 0 elsewhere (red) as the claim and the
class docstring state. -/
theorem corner_white_not_red_eval :
    cornerCall ⟨1, "top-left", 7⟩ [[[0, 0, 0]]] 3 0 = ([[[1, 1, 1]]], 7) := by
  decide

/-- C10 (evaluation at the failing input): `img[0, 0] = 1` mutates the
caller's array in place, so after the call the caller's array content
(first component of `cornerCallInPlace`) is the poisoned image, not the
original input. -/
theorem corner_inplace_mutation_eval :
    (cornerCallInPlace ⟨1, "top-left", 0⟩ [[[0]]] 3 0).1 = [[[1]]] ∧
    ([[[(1 : ℚ)]]] : Img3) ≠ [[[0]]] := by
  decide

/-- C9 (counterexample): with `p_backdoor = 0` the code applies the noise
branch whenever the draw is exactly 0 (since `0 > 0` is false), adding the
noise array and overwriting the label with `target_class`, so the call is
not the identity for *every* value of the per-call draw. -/
theorem noise_zero_draw_counterexample :
    noiseCall ⟨0, 3/10, 9⟩ [[[0]]] 3 0 [[[1/2]]] = ([[[1/2]]], 9) ∧
    (([[[(1 : ℚ)/2]]] : Img3), (9 : ℤ)) ≠ (([[[0]]] : Img3), (3 : ℤ)) := by
  constructor
  · unfold noiseCall
    rw [if_neg (by norm_num)]
    simp [addImg]
  · intro hcontra
    have h1 : ([[[(1 : ℚ)/2]]] : Img3) = [[[0]]] := congrArg Prod.fst hcontra
    have h2 : ((1 : ℚ)/2) = 0 := by
      have h3 := congrArg (fun l : Img3 => getPixel l 0 0) h1
      simp only [getPixel, List.getD] at h3
      exact List.head_eq_of_cons_eq h3
    norm_num at h2

/-- C9 (amended): with `p_backdoor = 0` the noise transform is the
identity — output image and label equal the input — for every per-call
draw `r > 0`; only the measure-zero draw `r = 0` takes the noise branch. -/
theorem noise_identity_amended (std : ℚ) (tc : ℤ) (img : Img3) (target : ℤ)
    (r : ℚ) (noise : Img3) (hr : 0 < r) :
    noiseCall ⟨0, std, tc⟩ img target r noise = (img, target) := by
  unfold noiseCall
  rw [if_pos hr]

/-- Witness for `noise_identity_amended` at a concrete input. -/
theorem noise_identity_amended_witness :
    (0 : ℚ) < 1/2 ∧
    noiseCall ⟨0, 3/10, 9⟩ [[[4]]] 3 (1/2) [[[1/2]]] = ([[[4]]], 3) :=
  ⟨by norm_num, noise_identity_amended (3/10) 9 [[[4]]] 3 (1/2) [[[1/2]]] (by norm_num)⟩

/-- Minimum of a list of rationals (`tensor.min(0)` over a flattened view);
0 on the empty list, which the source never hits. -/
def listMin : List ℚ → ℚ
  | [] => 0
  | [x] => x
  | x :: y :: t => min x (listMin (y :: t))

/-- Maximum of a list of rationals (`tensor.max(0)` over a flattened
view). -/
def listMax : List ℚ → ℚ
  | [] => 0
  | [x] => x
  | x :: y :: t => max x (listMax (y :: t))

/-- Sum of a list of rationals. -/
def sumList (l : List ℚ) : ℚ := l.foldr (· + ·) 0

/-- The control grid computed in `WanetBackdoor.__post_init__`
(lines 96-100): `2 * torch.rand(1, 2, k, k) - 1`, divided by its mean
absolute value, then multiplied by `warping_strength`.  `draw c i j` is the
uniform [0,1) sample at channel `c`, row `i`, column `j`. -/
def mkControlGrid (k : Nat) (strength : ℚ) (draw : Nat → Nat → Nat → ℚ) : T4 :=
  let raw : List (List (List ℚ)) :=
    (List.range 2).map fun c =>
      (List.range k).map fun i =>
        (List.range k).map fun j => 2 * draw c i j - 1
  let meanAbs :=
    sumList (raw.map fun ch => sumList (ch.map fun row => sumList (row.map abs))) /
      (2 * (k : ℚ) * k)
  [raw.map fun ch => ch.map fun row => row.map fun x => x / meanAbs * strength]

/-- Configuration and pre-computed state of `WanetBackdoor`. -/
structure WanetBackdoor where
  p_backdoor : ℚ
  p_noise : ℚ
  control_grid_width : Nat
  warping_strength : ℚ
  target_class : ℤ
  control_grid : T4

/-- The error kind the spec assigns to invalid hyperparameters; the source
raises it as the `AssertionError` of
`assert 0 <= p_transform <= 1` in `WanetBackdoor.__post_init__`. -/
inductive ConfigError
  | probabilityOutOfRange

/-- `WanetBackdoor.__post_init__` (lines 93-104): samples and normalizes
the control grid, then eagerly validates `p_backdoor + p_noise`; the check
happens at construction, `wanetCallS` below performs no probability
validation. -/
def wanetPostInit (pb pn : ℚ) (k : Nat) (strength : ℚ) (tc : ℤ)
    (draw : Nat → Nat → Nat → ℚ) : Except ConfigError WanetBackdoor :=
  if 0 ≤ pb + pn ∧ pb + pn ≤ 1 then
    Except.ok ⟨pb, pn, k, strength, tc, mkControlGrid k strength draw⟩
  else Except.error ConfigError.probabilityOutOfRange

/-- Floor of a rational as an integer. -/
def qfloor (q : ℚ) : ℤ := q.floor

/-- Clamp an integer index into `[0, n-1]` (torch's bounded access for
bicubic upsampling). -/
def clampIdx (n : Nat) (i : ℤ) : Nat := (min (max i 0) ((n : ℤ) - 1)).toNat

/-- Cubic convolution kernel on `[0, 1]` with `A = -3/4` (torch's bicubic
coefficient): `(A + 2)t³ - (A + 3)t² + 1`. -/
def cubicNear (t : ℚ) : ℚ := (5/4) * t * t * t - (9/4) * t * t + 1

/-- Cubic convolution kernel on `[1, 2]` with `A = -3/4`:
`A t³ - 5A t² + 8A t - 4A`. -/
def cubicFar (t : ℚ) : ℚ := (-3/4) * t * t * t + (15/4) * t * t - 6 * t + 3

/-- The four bicubic tap weights for fractional offset `t ∈ [0, 1)`,
taps at relative positions -1, 0, 1, 2. -/
def bicubicWeights (t : ℚ) : List ℚ :=
  [cubicFar (t + 1), cubicNear t, cubicNear (1 - t), cubicFar (2 - t)]

/-- Source coordinate for output index `i` under `align_corners=False`
(the default of `F.interpolate`): `(i + 1/2) * inSize / outSize - 1/2`. -/
def srcCoord (outSize inSize : Nat) (i : Nat) : ℚ :=
  ((i : ℚ) + 1/2) * inSize / outSize - 1/2

/-- Bicubic upsampling of one `k×k` channel of the control grid to
`py × px`, as done by `F.interpolate(..., mode='bicubic')` with its
default `align_corners=False` and clamped boundary access. -/
def interpChannel (ch : List (List ℚ)) (k py px : Nat) : List (List ℚ) :=
  (List.range py).map fun oy =>
    (List.range px).map fun ox =>
      let sy := srcCoord py k oy
      let sx := srcCoord px k ox
      let fy := qfloor sy
      let fx := qfloor sx
      let wys := bicubicWeights (sy - (fy : ℚ))
      let wxs := bicubicWeights (sx - (fx : ℚ))
      sumList ((List.range 4).map fun m =>
        wys.getD m 0 *
          sumList ((List.range 4).map fun n =>
            wxs.getD n 0 *
              ((ch.getD (clampIdx k (fy + (m : ℤ) - 1)) []).getD
                (clampIdx k (fx + (n : ℤ) - 1)) 0)))

/-- A dense warping field of shape `(1, py, px, 2)`: the batch dimension is
always 1 (it comes from the control grid's batch dimension), so it is kept
implicit and each position holds the pair of the two field channels. -/
abbrev WField := List (List (ℚ × ℚ))

/-- Channel `c` of the control grid (batch entry 0). -/
def gridChannel (g : T4) (c : Nat) : List (List ℚ) := (g.getD 0 []).getD c []

/-- Lines 114-118: `F.interpolate(self.control_grid, size=(py, px),
mode='bicubic').movedim(1, -1)` — both control-grid channels upsampled to
the image resolution and moved to the trailing dimension. -/
def baseWarpField (g : T4) (k py px : Nat) : WField :=
  let c0 := interpChannel (gridChannel g 0) k py px
  let c1 := interpChannel (gridChannel g 1) k py px
  (List.range py).map fun i =>
    (List.range px).map fun j =>
      ((c0.getD i []).getD j 0, (c1.getD i []).getD j 0)

/-- Line 123: `2 * torch.rand_like(warping_field) - 1`, the uniform noise
added in noise mode; `u i j` is the pair of uniform [0,1) draws at pixel
`(i, j)`. -/
def noiseField (py px : Nat) (u : Nat → Nat → ℚ × ℚ) : WField :=
  (List.range py).map fun i =>
    (List.range px).map fun j =>
      (2 * (u i j).1 - 1, 2 * (u i j).2 - 1)

/-- Elementwise sum of two warping fields. -/
def addField (f g : WField) : WField :=
  List.zipWith (List.zipWith fun p q => (p.1 + q.1, p.2 + q.2)) f g

/-- Lines 121-124: the warping field after the noise-mode branch — the
interpolated field, plus the uniform noise exactly when `r < p_noise`. -/
def wanetPreField (w : WanetBackdoor) (py px : Nat) (r : ℚ)
    (u : Nat → Nat → ℚ × ℚ) : WField :=
  if r < w.p_noise then
    addField (baseWarpField w.control_grid w.control_grid_width py px)
      (noiseField py px u)
  else baseWarpField w.control_grid w.control_grid_width py px

/-- Line 130: `warping_field / torch.tensor([[[[py, px]]]])` — the first
component of each pair divided by `py`, the second by `px`. -/
def scaledField (f : WField) (py px : Nat) : WField :=
  f.map (List.map fun p => (p.1 / (py : ℚ), p.2 / (px : ℚ)))

/-- `torch.linspace(-1, 1, n)` at index `i` (a single point sits at -1). -/
def linspaceVal (n i : Nat) : ℚ :=
  if n ≤ 1 then -1 else -1 + 2 * i / ((n : ℚ) - 1)

/-- Lines 131-134: the identity sampling grid
`torch.stack(torch.meshgrid(linspace(-1,1,py), linspace(-1,1,px))[::-1], 2)`:
position `(i, j)` holds `(linspace(px)[j], linspace(py)[i])` — the reversed
meshgrid puts the x (column) coordinate first, matching `grid_sample`'s
convention. -/
def identityField (py px : Nat) : WField :=
  (List.range py).map fun i =>
    (List.range px).map fun j => (linspaceVal px j, linspaceVal py i)

/-- Concatenation of the rows of a field (`tensor.view(-1, 2)`). -/
def flatF (f : WField) : List (ℚ × ℚ) := f.foldr (· ++ ·) []

/-- Lines 138-141: the per-coordinate min-max rescale
`2 * (warping_field - w_min) / (w_max - w_min) - 1`, with the minimum and
maximum taken over the flattened `(-1, 2)` view. -/
def rescaleField (f : WField) : WField :=
  let m0 := listMin ((flatF f).map Prod.fst)
  let mx0 := listMax ((flatF f).map Prod.fst)
  let m1 := listMin ((flatF f).map Prod.snd)
  let mx1 := listMax ((flatF f).map Prod.snd)
  f.map (List.map fun p =>
    (2 * (p.1 - m0) / (mx0 - m0) - 1, 2 * (p.2 - m1) / (mx1 - m1) - 1))

/-- Lines 129-141 combined: identity field plus the image-relative
displacement field. -/
def wanetCombinedField (w : WanetBackdoor) (py px : Nat) (r : ℚ)
    (u : Nat → Nat → ℚ × ℚ) : WField :=
  addField (identityField py px) (scaledField (wanetPreField w py px r u) py px)

/-- The final warping grid passed to `grid_sample`. -/
def wanetWarpGrid (w : WanetBackdoor) (py px : Nat) (r : ℚ)
    (u : Nat → Nat → ℚ × ℚ) : WField :=
  rescaleField (wanetCombinedField w py px r u)

/-- `grid_sample` coordinate unnormalization with `align_corners=False`
(the default): `((c + 1) * size - 1) / 2`. -/
def unnormalize (size : Nat) (c : ℚ) : ℚ := ((c + 1) * size - 1) / 2

/-- Clamp a rational into `[lo, hi]`. -/
def clipQ (lo hi x : ℚ) : ℚ := min (max x lo) hi

/-- Pixel read with zero for out-of-bounds positions (torch's
`within_bounds` guard in the bilinear kernel). -/
def getv (ch : List (List ℚ)) (py px : Nat) (i j : ℤ) : ℚ :=
  if 0 ≤ i ∧ i < (py : ℤ) ∧ 0 ≤ j ∧ j < (px : ℤ) then
    (ch.getD i.toNat []).getD j.toNat 0
  else 0

/-- Bilinear sampling of one channel at normalized grid coordinates
`(gx, gy)` with `padding_mode='border'`: coordinates are unnormalized then
clipped to `[0, size-1]` before the 4-tap bilinear interpolation. -/
def sampleBilinear (ch : List (List ℚ)) (py px : Nat) (gx gy : ℚ) : ℚ :=
  let ix := clipQ 0 ((px : ℚ) - 1) (unnormalize px gx)
  let iy := clipQ 0 ((py : ℚ) - 1) (unnormalize py gy)
  let x0 := qfloor ix
  let y0 := qfloor iy
  let tx := ix - (x0 : ℚ)
  let ty := iy - (y0 : ℚ)
  (1 - tx) * (1 - ty) * getv ch py px y0 x0 +
    tx * (1 - ty) * getv ch py px y0 (x0 + 1) +
    (1 - tx) * ty * getv ch py px (y0 + 1) x0 +
    tx * ty * getv ch py px (y0 + 1) (x0 + 1)

/-- `F.grid_sample(img, grid, mode='bilinear', padding_mode='border')`
(lines 145-150).  torch requires the grid's batch size to equal the
input's; the warping grid built above has batch size 1 (inherited from the
control grid), so the call raises a `RuntimeError` — embedded as `none` —
whenever the input batch is not 1.  The output spatial extent is the
grid's extent; `py`/`px` are the input's spatial sizes used for
unnormalization. -/
def gridSample (img : T4) (grid : WField) (py px : Nat) : Option T4 :=
  if img.length = 1 then
    some (img.map fun sample =>
      sample.map fun ch =>
        grid.map fun row =>
          row.map fun p => sampleBilinear ch py px p.1 p.2)
  else none

/-- The `(bs, cs, py, px) = img.size()` unpacking of line 110 (valid on
rectangular 4D tensors). -/
def imgDims (img : T4) : Nat × Nat × Nat × Nat :=
  (img.length, (img.getD 0 []).length, ((img.getD 0 []).getD 0 []).length,
    (((img.getD 0 []).getD 0 []).getD 0 []).length)

/-- `WanetBackdoor.__call__` (lines 106-153) with the object state threaded
explicitly: the body never assigns to `self`, so the returned state is the
incoming one.  `r` is the draw of `torch.rand(1)`; `u` supplies the noise
draws of `torch.rand_like`.  `torch.tensor(img)` / `img.numpy()` are
value-identities and are dropped.  The result is `none` exactly when
`grid_sample` raises (input batch ≠ 1 in the triggered branch). -/
def wanetCallS (w : WanetBackdoor) (img : T4) (target : ℤ) (r : ℚ)
    (u : Nat → Nat → ℚ × ℚ) : WanetBackdoor × Option (T4 × ℤ) :=
  (w,
    if r ≤ w.p_backdoor + w.p_noise then
      match gridSample img
          (wanetWarpGrid w (imgDims img).2.2.1 (imgDims img).2.2.2 r u)
          (imgDims img).2.2.1 (imgDims img).2.2.2 with
      | some img2 =>
        some (img2, if r < w.p_noise then target else w.target_class)
      | none => none
    else some (img, target))

/-- Rectangularity of a 4D tensor with dimensions `(b, c, h, w)`. -/
def Rect4 (t : T4) (b c h w : Nat) : Prop :=
  t.length = b ∧ ∀ s ∈ t, s.length = c ∧ ∀ ch ∈ s, ch.length = h ∧
    ∀ row ∈ ch, row.length = w

instance (t : T4) (b c h w : Nat) : Decidable (Rect4 t b c h w) := by
  unfold Rect4
  exact instDecidableAnd

/-- C3: the control grid sampled at construction is a rectangular tensor of
shape `(1, 2, k, k)` (the elementwise normalization of `__post_init__`
preserves the shape of `torch.rand(1, 2, k, k)`), and a call never mutates
it: `__call__` assigns nothing to `self`, so the state returned by the
explicitly-threaded call is the incoming one, and after two successive
calls the control grid is still equal to the one sampled at
construction. -/
theorem wanet_control_grid_shape_and_stable (k : Nat) (strength : ℚ)
    (draw : Nat → Nat → Nat → ℚ) (w : WanetBackdoor) (img img2 : T4)
    (target target2 : ℤ) (r r2 : ℚ) (u u2 : Nat → Nat → ℚ × ℚ) :
    Rect4 (mkControlGrid k strength draw) 1 2 k k ∧
    (wanetCallS w img target r u).1 = w ∧
    ((wanetCallS (wanetCallS w img target r u).1 img2 target2 r2 u2).1).control_grid =
      w.control_grid := by
  refine ⟨?_, rfl, rfl⟩
  unfold mkControlGrid Rect4
  refine ⟨by simp, ?_⟩
  intro s hs
  rw [List.mem_singleton] at hs
  subst hs
  refine ⟨by simp, ?_⟩
  intro ch hch
  rw [List.mem_map] at hch
  obtain ⟨ch0, hch0, rfl⟩ := hch
  rw [List.mem_map] at hch0
  obtain ⟨c, _, rfl⟩ := hch0
  refine ⟨by simp, ?_⟩
  intro row hrow
  rw [List.mem_map] at hrow
  obtain ⟨row0, hrow0, rfl⟩ := hrow
  rw [List.mem_map] at hrow0
  obtain ⟨i, _, rfl⟩ := hrow0
  simp

/-- C4: `__post_init__` validates the probabilities eagerly — construction
succeeds exactly when `p_backdoor + p_noise` lies in `[0, 1]` and fails
with the configuration error when the sum exceeds 1 (the call itself,
`wanetCallS`, contains no probability check). -/
theorem wanet_construction_validation (pb pn : ℚ) (k : Nat) (strength : ℚ)
    (tc : ℤ) (draw : Nat → Nat → Nat → ℚ) :
    (0 ≤ pb + pn → pb + pn ≤ 1 →
      ∃ w2, wanetPostInit pb pn k strength tc draw = Except.ok w2) ∧
    (1 < pb + pn →
      wanetPostInit pb pn k strength tc draw =
        Except.error ConfigError.probabilityOutOfRange) := by
  constructor
  · intro h0 h1
    refine ⟨⟨pb, pn, k, strength, tc, mkControlGrid k strength draw⟩, ?_⟩
    unfold wanetPostInit
    rw [if_pos ⟨h0, h1⟩]
  · intro hgt
    unfold wanetPostInit
    rw [if_neg (fun hcon => absurd hcon.2 (not_le.mpr hgt))]

/-- Witness for `wanet_construction_validation`: sums 3/4 (valid) and 3/2
(invalid) at concrete arguments. -/
theorem wanet_construction_validation_witness :
    ((0 : ℚ) ≤ 1/2 + 1/4 ∧ (1/2 + 1/4 : ℚ) ≤ 1 ∧
      ∃ w2, wanetPostInit (1/2) (1/4) 4 (1/2) 7 (fun _ _ _ => 3/4) = Except.ok w2) ∧
    ((1 : ℚ) < 3/4 + 3/4 ∧
      wanetPostInit (3/4) (3/4) 4 (1/2) 7 (fun _ _ _ => 3/4) =
        Except.error ConfigError.probabilityOutOfRange) :=
  ⟨⟨by norm_num, by norm_num,
      (wanet_construction_validation (1/2) (1/4) 4 (1/2) 7 (fun _ _ _ => 3/4)).1
        (by norm_num) (by norm_num)⟩,
    ⟨by norm_num,
      (wanet_construction_validation (3/4) (3/4) 4 (1/2) 7 (fun _ _ _ => 3/4)).2
        (by norm_num)⟩⟩

/-- C5: whenever the per-call draw exceeds `p_backdoor + p_noise`, the call
is the identity: the returned image and label are exactly the inputs. -/
theorem wanet_identity_branch (w : WanetBackdoor) (img : T4) (target : ℤ)
    (r : ℚ) (u : Nat → Nat → ℚ × ℚ) (hr : w.p_backdoor + w.p_noise < r) :
    wanetCallS w img target r u = (w, some (img, target)) := by
  unfold wanetCallS
  rw [if_neg (not_le.mpr hr)]

/-- A concrete WaNet transform with `p_backdoor = 1/2`, `p_noise = 0`. -/
def wIdent : WanetBackdoor := ⟨1/2, 0, 2, 1, 7, mkControlGrid 2 1 (fun _ _ _ => 3/4)⟩

/-- Witness for `wanet_identity_branch` at a concrete input. -/
theorem wanet_identity_branch_witness :
    wIdent.p_backdoor + wIdent.p_noise < 1 ∧
    wanetCallS wIdent [[[[2]]]] 3 1 (fun _ _ => (0, 0)) = (wIdent, some ([[[[2]]]], 3)) :=
  ⟨by norm_num [wIdent],
    wanet_identity_branch wIdent [[[[2]]]] 3 1 (fun _ _ => (0, 0)) (by norm_num [wIdent])⟩

/-- Flattening a field enumerates exactly the members of its rows. -/
theorem mem_flatF (f : WField) (p : ℚ × ℚ) :
    p ∈ flatF f ↔ ∃ row ∈ f, p ∈ row := by
  unfold flatF
  induction f with
  | nil => simp
  | cons row rest ih => simp [List.mem_append, ih]

/-- C6: in the triggered branch (`r ≤ p_backdoor + p_noise`, stated here
for batch-1 inputs so that `grid_sample` returns an image), the returned
label is the input label when `r < p_noise` (noise mode) and `target_class`
otherwise (adversary mode); in noise mode the warping field that the call
warps with is the interpolated field plus the noise field, every entry of
which lies in [-1, 1] when the uniform draws lie in [0, 1). -/
theorem wanet_trigger_label_and_noise (w : WanetBackdoor) (img : T4) (target : ℤ)
    (r : ℚ) (u : Nat → Nat → ℚ × ℚ) (hr : r ≤ w.p_backdoor + w.p_noise)
    (hb : img.length = 1)
    (hu : ∀ i j : Nat, 0 ≤ (u i j).1 ∧ (u i j).1 < 1 ∧ 0 ≤ (u i j).2 ∧ (u i j).2 < 1) :
    (∃ img2, wanetCallS w img target r u =
      (w, some (img2, if r < w.p_noise then target else w.target_class))) ∧
    (r < w.p_noise →
      wanetPreField w (imgDims img).2.2.1 (imgDims img).2.2.2 r u =
        addField
          (baseWarpField w.control_grid w.control_grid_width
            (imgDims img).2.2.1 (imgDims img).2.2.2)
          (noiseField (imgDims img).2.2.1 (imgDims img).2.2.2 u) ∧
      ∀ p ∈ flatF (noiseField (imgDims img).2.2.1 (imgDims img).2.2.2 u),
        -1 ≤ p.1 ∧ p.1 ≤ 1 ∧ -1 ≤ p.2 ∧ p.2 ≤ 1) := by
  constructor
  · unfold wanetCallS
    rw [if_pos hr]
    unfold gridSample
    rw [if_pos hb]
    exact ⟨_, rfl⟩
  · intro hrn
    constructor
    · unfold wanetPreField
      rw [if_pos hrn]
    · intro p hp
      rw [mem_flatF] at hp
      obtain ⟨row, hrow, hpin⟩ := hp
      unfold noiseField at hrow
      rw [List.mem_map] at hrow
      obtain ⟨i, _, rfl⟩ := hrow
      rw [List.mem_map] at hpin
      obtain ⟨j, _, rfl⟩ := hpin
      obtain ⟨h1, h2, h3, h4⟩ := hu i j
      dsimp only
      refine ⟨by linarith, by linarith, by linarith, by linarith⟩

/-- A concrete WaNet transform with `p_backdoor = 1/2`, `p_noise = 1/2`. -/
def wTrig : WanetBackdoor := ⟨1/2, 1/2, 2, 1, 9, mkControlGrid 2 1 (fun _ _ _ => 3/4)⟩

/-- Concrete uniform draws used by the trigger witness. -/
def uHalf : Nat → Nat → ℚ × ℚ := fun _ _ => (1/2, 1/2)

/-- Witness for `wanet_trigger_label_and_noise` at a concrete input
(draw 1/4 against `wTrig`, a 1×1×1×1 image). -/
theorem wanet_trigger_label_and_noise_witness :
    ((1/4 : ℚ) ≤ wTrig.p_backdoor + wTrig.p_noise ∧
     ([[[[(0 : ℚ)]]]] : T4).length = 1 ∧
     (∀ i j : Nat, 0 ≤ (uHalf i j).1 ∧ (uHalf i j).1 < 1 ∧
       0 ≤ (uHalf i j).2 ∧ (uHalf i j).2 < 1)) ∧
    ((∃ img2, wanetCallS wTrig [[[[(0 : ℚ)]]]] 3 (1/4) uHalf =
      (wTrig, some (img2, if (1/4 : ℚ) < wTrig.p_noise then 3 else wTrig.target_class))) ∧
    ((1/4 : ℚ) < wTrig.p_noise →
      wanetPreField wTrig (imgDims [[[[(0 : ℚ)]]]]).2.2.1
          (imgDims [[[[(0 : ℚ)]]]]).2.2.2 (1/4) uHalf =
        addField
          (baseWarpField wTrig.control_grid wTrig.control_grid_width
            (imgDims [[[[(0 : ℚ)]]]]).2.2.1 (imgDims [[[[(0 : ℚ)]]]]).2.2.2)
          (noiseField (imgDims [[[[(0 : ℚ)]]]]).2.2.1
            (imgDims [[[[(0 : ℚ)]]]]).2.2.2 uHalf) ∧
      ∀ p ∈ flatF (noiseField (imgDims [[[[(0 : ℚ)]]]]).2.2.1
          (imgDims [[[[(0 : ℚ)]]]]).2.2.2 uHalf),
        -1 ≤ p.1 ∧ p.1 ≤ 1 ∧ -1 ≤ p.2 ∧ p.2 ≤ 1)) :=
  ⟨⟨by norm_num [wTrig], rfl, fun i j => by norm_num [uHalf]⟩,
    wanet_trigger_label_and_noise wTrig [[[[(0 : ℚ)]]]] 3 (1/4) uHalf
      (by norm_num [wTrig]) rfl (fun i j => by norm_num [uHalf])⟩

/-- `listMin` commutes with mapping a monotone function. -/
theorem listMin_map_mono (g : ℚ → ℚ) (hg : Monotone g) :
    ∀ l : List ℚ, l ≠ [] → listMin (l.map g) = g (listMin l) := by
  intro l
  induction l with
  | nil => intro h; exact absurd rfl h
  | cons x xs ih =>
    intro _
    cases xs with
    | nil => rfl
    | cons y t =>
      have e1 : listMin ((x :: y :: t).map g) = min (g x) (listMin ((y :: t).map g)) := rfl
      have e2 : listMin (x :: y :: t) = min x (listMin (y :: t)) := rfl
      rw [e1, e2, ih (List.cons_ne_nil y t), hg.map_min]

/-- `listMax` commutes with mapping a monotone function. -/
theorem listMax_map_mono (g : ℚ → ℚ) (hg : Monotone g) :
    ∀ l : List ℚ, l ≠ [] → listMax (l.map g) = g (listMax l) := by
  intro l
  induction l with
  | nil => intro h; exact absurd rfl h
  | cons x xs ih =>
    intro _
    cases xs with
    | nil => rfl
    | cons y t =>
      have e1 : listMax ((x :: y :: t).map g) = max (g x) (listMax ((y :: t).map g)) := rfl
      have e2 : listMax (x :: y :: t) = max x (listMax (y :: t)) := rfl
      rw [e1, e2, ih (List.cons_ne_nil y t), hg.map_max]

/-- The min-max rescale `x ↦ 2 (x - min) / (max - min) - 1` of a nonempty,
nonconstant list attains -1 as its minimum and 1 as its maximum. -/
theorem minmax_rescale_spans (l : List ℚ) (hne : l ≠ [])
    (hlt : listMin l < listMax l) :
    listMin (l.map fun x => 2 * (x - listMin l) / (listMax l - listMin l) - 1) = -1 ∧
    listMax (l.map fun x => 2 * (x - listMin l) / (listMax l - listMin l) - 1) = 1 := by
  have hpos : 0 < listMax l - listMin l := sub_pos.mpr hlt
  have hne0 : listMax l - listMin l ≠ 0 := ne_of_gt hpos
  have hg : Monotone (fun x => 2 * (x - listMin l) / (listMax l - listMin l) - 1) := by
    intro a b hab
    have h2 : 2 * (a - listMin l) ≤ 2 * (b - listMin l) := by linarith
    have h3 : 2 * (a - listMin l) / (listMax l - listMin l) ≤
        2 * (b - listMin l) / (listMax l - listMin l) :=
      (div_le_div_iff_of_pos_right hpos).mpr h2
    simpa using sub_le_sub_right h3 1
  constructor
  · rw [listMin_map_mono _ hg l hne]
    show 2 * (listMin l - listMin l) / (listMax l - listMin l) - 1 = -1
    rw [sub_self]
    norm_num
  · rw [listMax_map_mono _ hg l hne]
    show 2 * (listMax l - listMin l) / (listMax l - listMin l) - 1 = 1
    rw [mul_div_assoc, div_self hne0]
    norm_num

/-- Flattening commutes with an elementwise map on a field. -/
theorem flatF_map (g : ℚ × ℚ → ℚ × ℚ) (f : WField) :
    flatF (f.map (List.map g)) = (flatF f).map g := by
  unfold flatF
  induction f with
  | nil => rfl
  | cons row rest ih =>
    show List.map g row ++ _ = List.map g (row ++ _)
    rw [List.map_append, ih]

/-- C7: the min-max rescale of lines 138-141, applied to the combined
(identity plus displacement) field, makes each coordinate of the warping
field exactly span [-1, 1]: provided the coordinate is not constant over
the field (max > min, so the rescale divides by a nonzero range), the
rescaled coordinate has minimum exactly -1 and maximum exactly 1.  Stated
for an arbitrary field `f`; inside the triggered branch `wanetWarpGrid`
applies `rescaleField` to exactly such a field. -/
theorem wanet_rescale_spans_unit (f : WField) (hne : flatF f ≠ []) :
    (listMin ((flatF f).map Prod.fst) < listMax ((flatF f).map Prod.fst) →
      listMin ((flatF (rescaleField f)).map Prod.fst) = -1 ∧
      listMax ((flatF (rescaleField f)).map Prod.fst) = 1) ∧
    (listMin ((flatF f).map Prod.snd) < listMax ((flatF f).map Prod.snd) →
      listMin ((flatF (rescaleField f)).map Prod.snd) = -1 ∧
      listMax ((flatF (rescaleField f)).map Prod.snd) = 1) := by
  have hne1 : (flatF f).map Prod.fst ≠ [] := by
    intro hcon
    exact hne (List.map_eq_nil_iff.mp hcon)
  have hne2 : (flatF f).map Prod.snd ≠ [] := by
    intro hcon
    exact hne (List.map_eq_nil_iff.mp hcon)
  have key1 : (flatF (rescaleField f)).map Prod.fst =
      ((flatF f).map Prod.fst).map fun x =>
        2 * (x - listMin ((flatF f).map Prod.fst)) /
          (listMax ((flatF f).map Prod.fst) - listMin ((flatF f).map Prod.fst)) - 1 := by
    unfold rescaleField
    rw [flatF_map, List.map_map, List.map_map]
    rfl
  have key2 : (flatF (rescaleField f)).map Prod.snd =
      ((flatF f).map Prod.snd).map fun x =>
        2 * (x - listMin ((flatF f).map Prod.snd)) /
          (listMax ((flatF f).map Prod.snd) - listMin ((flatF f).map Prod.snd)) - 1 := by
    unfold rescaleField
    rw [flatF_map, List.map_map, List.map_map]
    rfl
  constructor
  · intro hlt
    rw [key1]
    exact minmax_rescale_spans ((flatF f).map Prod.fst) hne1 hlt
  · intro hlt
    rw [key2]
    exact minmax_rescale_spans ((flatF f).map Prod.snd) hne2 hlt

/-- Witness for `wanet_rescale_spans_unit`: the concrete one-row field
`[(0, 0), (1, 2)]`, nonconstant in both coordinates. -/
theorem wanet_rescale_spans_unit_witness :
    (flatF [[((0 : ℚ), (0 : ℚ)), (1, 2)]] ≠ [] ∧
     listMin ((flatF [[((0 : ℚ), (0 : ℚ)), (1, 2)]]).map Prod.fst) <
       listMax ((flatF [[((0 : ℚ), (0 : ℚ)), (1, 2)]]).map Prod.fst) ∧
     listMin ((flatF [[((0 : ℚ), (0 : ℚ)), (1, 2)]]).map Prod.snd) <
       listMax ((flatF [[((0 : ℚ), (0 : ℚ)), (1, 2)]]).map Prod.snd)) ∧
    (listMin ((flatF (rescaleField [[((0 : ℚ), (0 : ℚ)), (1, 2)]])).map Prod.fst) = -1 ∧
     listMax ((flatF (rescaleField [[((0 : ℚ), (0 : ℚ)), (1, 2)]])).map Prod.fst) = 1) ∧
    (listMin ((flatF (rescaleField [[((0 : ℚ), (0 : ℚ)), (1, 2)]])).map Prod.snd) = -1 ∧
     listMax ((flatF (rescaleField [[((0 : ℚ), (0 : ℚ)), (1, 2)]])).map Prod.snd) = 1) :=
  ⟨⟨by decide, by decide, by decide⟩,
    (wanet_rescale_spans_unit [[((0 : ℚ), (0 : ℚ)), (1, 2)]] (by decide)).1 (by decide),
    (wanet_rescale_spans_unit [[((0 : ℚ), (0 : ℚ)), (1, 2)]] (by decide)).2 (by decide)⟩

/-- A concrete WaNet transform with `p_backdoor = 1`. -/
def wBatch : WanetBackdoor := ⟨1, 0, 2, 1/2, 7, mkControlGrid 2 (1/2) (fun _ _ _ => 3/4)⟩

/-- A rectangular 4D image of shape (2, 1, 2, 2): batch size 2. -/
def imgBatch2 : T4 := [[[[0, 0], [0, 0]]], [[[0, 0], [0, 0]]]]

/-- C8 (evaluation at the failing input): with `p_backdoor = 1` and draw 0
the triggered branch is taken, and `grid_sample` — whose warping grid has
batch size 1 while the input has batch size 2 — raises, so the call
produces no image at all instead of one of shape (2, 1, 2, 2). -/
theorem wanet_batch_mismatch_eval :
    (wanetCallS wBatch imgBatch2 5 0 (fun _ _ => (0, 0))).2 = none := by
  unfold wanetCallS
  rw [if_pos (show (0 : ℚ) ≤ wBatch.p_backdoor + wBatch.p_noise by norm_num [wBatch])]
  have hg : gridSample imgBatch2
      (wanetWarpGrid wBatch (imgDims imgBatch2).2.2.1 (imgDims imgBatch2).2.2.2
        0 (fun _ _ => (0, 0)))
      (imgDims imgBatch2).2.2.1 (imgDims imgBatch2).2.2.2 = none := by
    unfold gridSample
    rw [if_neg (by simp [imgBatch2])]
  rw [hg]
